import Mathlib

/-!
Shallow embedding of the StreetPass-like ESP-NOW proximity-encounter engine
(src/src/main.rs).  The encounter table (a Rust HashMap from MAC address to
Encounter) is modelled as an association list with the usual representation
invariant (no duplicate keys); radio sends are modelled as an output list of
(destination, packet) pairs; the wall clock is passed explicitly.
-/

/-- A MAC address: six bytes, modelled as a list of naturals. -/
abbrev Mac := List Nat

/-- Mirror of the Rust struct DeviceInfo (main.rs lines 54-60). -/
structure DeviceInfo where
  username : String
  avatar_id : Nat
  status_message : String
  game_id : Nat
  deriving DecidableEq, Repr

/-- Mirror of the Rust enum StreetPassPacket (main.rs lines 76-94). -/
inductive StreetPassPacket where
  | Beacon (device_info : DeviceInfo) (timestamp : Nat)
  | Ack (timestamp : Nat)
  | GameData (game_id : Nat) (data : List Nat)
  deriving DecidableEq, Repr

/-- Mirror of the Rust struct Encounter (main.rs lines 97-103). -/
structure Encounter where
  device_info : DeviceInfo
  first_seen : Nat
  last_seen : Nat
  interaction_count : Nat
  deriving DecidableEq, Repr

/-- The encounter table: HashMap<[u8;6], Encounter> modelled as an
association list. -/
abbrev EncounterTable := List (Mac × Encounter)

/-- Mirror of the Rust struct AppState (main.rs lines 106-111). -/
structure AppState where
  device_info : DeviceInfo
  encounters : EncounterTable
  my_mac : Mac
  led_on : Bool
  deriving DecidableEq, Repr

/-- INTERACTION_TTL constant (main.rs line 42): one day in seconds. -/
def INTERACTION_TTL : Nat := 86400

/-- MAX_PEERS constant (main.rs line 43). -/
def MAX_PEERS : Nat := 20

/-- HashMap lookup: the value stored under key a, if any. -/
def lookupTable : EncounterTable → Mac → Option Encounter
  | [], _ => none
  | (k, v) :: rest, a => if k = a then some v else lookupTable rest a

/-- HashMap contains_key. -/
def containsKey (t : EncounterTable) (a : Mac) : Bool :=
  (lookupTable t a).isSome

/-- HashMap insert: replaces the entry under key a if present, otherwise
appends a fresh entry. -/
def insertTable : EncounterTable → Mac → Encounter → EncounterTable
  | [], a, e => [(a, e)]
  | (k, v) :: rest, a, e =>
      if k = a then (a, e) :: rest else (k, v) :: insertTable rest a e

/-- process_packet (main.rs lines 399-464).  On a Beacon it performs the
entry(*src_mac).or_insert(...) followed by the three field updates and the
LED flag for new encounters, then queues an Ack carrying the beacon's
timestamp back to the sender; Ack and GameData packets are logged only.
Returns the new state and the list of (destination, packet) sends. -/
def process_packet (st : AppState) (src : Mac) (pkt : StreetPassPacket)
    (now : Nat) : AppState × List (Mac × StreetPassPacket) :=
  match pkt with
  | .Beacon di ts =>
      let is_new := ¬ containsKey st.encounters src
      let base := (lookupTable st.encounters src).getD
        { device_info := di, first_seen := now, last_seen := now,
          interaction_count := 0 }
      let updated : Encounter :=
        { device_info := di, first_seen := base.first_seen, last_seen := now,
          interaction_count := base.interaction_count + 1 }
      let st' : AppState :=
        { st with
            encounters := insertTable st.encounters src updated,
            led_on := if is_new then true else st.led_on }
      (st', [(src, .Ack ts)])
  | .Ack _ => (st, [])
  | .GameData _ _ => (st, [])

/-- cleanup_old_encounters (main.rs lines 473-483):
encounters.retain(now - last_seen < INTERACTION_TTL).  Nat subtraction
truncates; the claims about this function assume now is at least every
last_seen, matching u64 arithmetic without underflow. -/
def cleanup_old_encounters (st : AppState) (now : Nat) : AppState :=
  { st with
      encounters :=
        st.encounters.filter
          (fun p => now - p.2.last_seen < INTERACTION_TTL) }

/-- esp_now_receive_callback (main.rs lines 332-378).  Deserialization by
serde_json is abstracted as a parse function from raw bytes to an optional
packet.  Empty data (data_len <= 0), packets from our own MAC, and
malformed payloads all return without touching the state. -/
def esp_now_receive_callback (st : AppState) (src : Mac) (data : List Nat)
    (parse : List Nat → Option StreetPassPacket) (now : Nat) :
    AppState × List (Mac × StreetPassPacket) :=
  if data.length = 0 then (st, [])
  else if src = st.my_mac then (st, [])
  else
    match parse data with
    | some pkt => process_packet st src pkt now
    | none => (st, [])

/-- One operation of the engine loop: either the receive path processes a
packet, or the broadcaster thread runs the periodic TTL sweep. -/
inductive Op where
  | packet (src : Mac) (pkt : StreetPassPacket) (now : Nat)
  | sweep (now : Nat)

/-- The clock value carried by an operation. -/
def opNow : Op → Nat
  | .packet _ _ now => now
  | .sweep now => now

/-- Apply a single operation to the application state. -/
def applyOp (st : AppState) : Op → AppState
  | .packet src pkt now => (process_packet st src pkt now).1
  | .sweep now => cleanup_old_encounters st now

/-- Run a sequence of operations from a starting state. -/
def runOps (st : AppState) (ops : List Op) : AppState :=
  ops.foldl applyOp st

/-- Well-formedness of the encounter table at clock c: unique keys, and
every record has first_seen <= last_seen <= c and interaction_count >= 1. -/
def TableWF (t : EncounterTable) (c : Nat) : Prop :=
  (t.map Prod.fst).Nodup ∧
    ∀ p ∈ t, p.2.first_seen ≤ p.2.last_seen ∧ p.2.last_seen ≤ c ∧
      1 ≤ p.2.interaction_count

/-! ### Concrete data for witnesses and counterexamples -/

/-- A concrete device payload. -/
def di0 : DeviceInfo :=
  { username := "A", avatar_id := 0, status_message := "B", game_id := 0 }

/-- A second, distinct device payload. -/
def di1 : DeviceInfo :=
  { username := "C", avatar_id := 1, status_message := "D", game_id := 1 }

/-- A concrete peer MAC address. -/
def a0 : Mac := [1, 2, 3, 4, 5, 6]

/-- This node's own MAC address in the concrete states. -/
def myMac0 : Mac := [9, 9, 9, 9, 9, 9]

/-- A concrete encounter record, fresh at time 100. -/
def e0 : Encounter :=
  { device_info := di0, first_seen := 100, last_seen := 100,
    interaction_count := 1 }

/-- A concrete state whose table holds one record, for a0, seen at 100. -/
def st1 : AppState :=
  { device_info := di0, encounters := [(a0, e0)], my_mac := myMac0,
    led_on := false }

/-- A concrete empty-table state. -/
def stEmpty : AppState :=
  { device_info := di0, encounters := [], my_mac := myMac0, led_on := false }

/-- A table holding exactly MAX_PEERS records (addresses [0] .. [19]). -/
def fullTable : EncounterTable :=
  (List.range MAX_PEERS).map
    (fun i => ([i],
      { device_info := di0, first_seen := 0, last_seen := 0,
        interaction_count := 1 }))

/-- A concrete state whose table is at the MAX_PEERS capacity. -/
def stFull : AppState :=
  { device_info := di0, encounters := fullTable, my_mac := myMac0,
    led_on := false }

/-- A 21st address, absent from fullTable. -/
def newMac : Mac := [MAX_PEERS]

/-! ### Association-list lemmas (HashMap representation) -/

theorem lookup_insert_self (t : EncounterTable) (a : Mac) (e : Encounter) :
    lookupTable (insertTable t a e) a = some e := by
  induction t with
  | nil => simp [insertTable, lookupTable]
  | cons p rest ih =>
      obtain ⟨k, v⟩ := p
      by_cases hk : k = a
      · simp [insertTable, hk, lookupTable]
      · simp [insertTable, hk, lookupTable, ih]

theorem lookup_insert_ne (t : EncounterTable) (a b : Mac) (e : Encounter)
    (h : b ≠ a) :
    lookupTable (insertTable t a e) b = lookupTable t b := by
  induction t with
  | nil => simp [insertTable, lookupTable, Ne.symm h]
  | cons p rest ih =>
      obtain ⟨k, v⟩ := p
      by_cases hk : k = a
      · subst hk
        simp [insertTable, lookupTable, Ne.symm h]
      · simp [insertTable, hk, lookupTable, ih]

theorem insertTable_of_not_mem (t : EncounterTable) (a : Mac) (e : Encounter)
    (h : lookupTable t a = none) :
    insertTable t a e = t ++ [(a, e)] := by
  induction t with
  | nil => simp [insertTable]
  | cons p rest ih =>
      obtain ⟨k, v⟩ := p
      by_cases hk : k = a
      · simp [lookupTable, hk] at h
      · simp [lookupTable, hk] at h
        simp [insertTable, hk, ih h]

theorem length_insert_of_contains (t : EncounterTable) (a : Mac)
    (e : Encounter) (h : (lookupTable t a).isSome) :
    (insertTable t a e).length = t.length := by
  induction t with
  | nil => simp [lookupTable] at h
  | cons p rest ih =>
      obtain ⟨k, v⟩ := p
      by_cases hk : k = a
      · simp [insertTable, hk]
      · simp [lookupTable, hk] at h
        simp [insertTable, hk, ih h]

theorem length_insert_of_new (t : EncounterTable) (a : Mac) (e : Encounter)
    (h : lookupTable t a = none) :
    (insertTable t a e).length = t.length + 1 := by
  rw [insertTable_of_not_mem t a e h]
  simp

theorem lookup_none_of_not_key (t : EncounterTable) (a : Mac)
    (h : a ∉ t.map Prod.fst) :
    lookupTable t a = none := by
  induction t with
  | nil => rfl
  | cons p rest ih =>
      obtain ⟨k, v⟩ := p
      have hk : ¬ k = a := by
        intro hh
        exact h (by simp [hh])
      have hrest : a ∉ rest.map Prod.fst := by
        intro hh
        exact h (by simp [hh])
      simp [lookupTable, hk, ih hrest]

theorem not_key_of_lookup_none (t : EncounterTable) (a : Mac)
    (h : lookupTable t a = none) :
    a ∉ t.map Prod.fst := by
  induction t with
  | nil => simp
  | cons p rest ih =>
      obtain ⟨k, v⟩ := p
      by_cases hk : k = a
      · simp [lookupTable, hk] at h
      · simp only [lookupTable, if_neg hk] at h
        intro hmem
        rcases List.mem_map.mp hmem with ⟨q, hq, hfst⟩
        rcases List.mem_cons.mp hq with hq1 | hq2
        · rw [hq1] at hfst
          exact hk hfst
        · exact ih h (hfst ▸ List.mem_map_of_mem Prod.fst hq2)

theorem mem_insertTable (t : EncounterTable) (a : Mac) (e : Encounter)
    (p : Mac × Encounter) (h : p ∈ insertTable t a e) :
    p = (a, e) ∨ p ∈ t := by
  induction t with
  | nil =>
      simp only [insertTable] at h
      exact Or.inl (List.mem_singleton.mp h)
  | cons q rest ih =>
      obtain ⟨k, v⟩ := q
      by_cases hk : k = a
      · simp only [insertTable, if_pos hk] at h
        rcases List.mem_cons.mp h with h | h
        · exact Or.inl h
        · exact Or.inr (List.mem_cons_of_mem _ h)
      · simp only [insertTable, if_neg hk] at h
        rcases List.mem_cons.mp h with h | h
        · exact Or.inr (List.mem_cons.mpr (Or.inl h))
        · rcases ih h with h2 | h2
          · exact Or.inl h2
          · exact Or.inr (List.mem_cons_of_mem _ h2)

theorem keys_insert_subset (t : EncounterTable) (a : Mac) (e : Encounter) :
    ∀ b ∈ (insertTable t a e).map Prod.fst, b = a ∨ b ∈ t.map Prod.fst := by
  intro b hb
  rcases List.mem_map.mp hb with ⟨q, hq, hfst⟩
  rcases mem_insertTable t a e q hq with h | h
  · left
    rw [← hfst, h]
  · right
    exact hfst ▸ List.mem_map_of_mem Prod.fst h

theorem nodup_keys_insert (t : EncounterTable) (a : Mac) (e : Encounter)
    (h : (t.map Prod.fst).Nodup) :
    ((insertTable t a e).map Prod.fst).Nodup := by
  induction t with
  | nil => simp [insertTable]
  | cons q rest ih =>
      obtain ⟨k, v⟩ := q
      rw [List.map_cons, List.nodup_cons] at h
      obtain ⟨hknot, hrest⟩ := h
      by_cases hk : k = a
      · subst hk
        have heq : insertTable ((k, v) :: rest) k e = (k, e) :: rest := by
          simp [insertTable]
        rw [heq, List.map_cons, List.nodup_cons]
        exact ⟨hknot, hrest⟩
      · simp only [insertTable, if_neg hk, List.map_cons, List.nodup_cons]
        refine ⟨?_, ih hrest⟩
        intro hmem
        rcases keys_insert_subset rest a e k hmem with h2 | h2
        · exact hk h2
        · exact hknot h2

/-! ### Claim theorems -/

/-- Claim C3: recording an interaction for address src with payload di at
time now creates a record with first_seen = last_seen = now and
interaction_count = 1 when none exists; otherwise it sets last_seen = now,
increments interaction_count by one and replaces the payload, leaving
first_seen unchanged; records of other addresses are untouched. -/
theorem process_beacon_record_semantics (st : AppState) (src : Mac)
    (di : DeviceInfo) (ts now : Nat) :
    (lookupTable st.encounters src = none →
      lookupTable (process_packet st src (.Beacon di ts) now).1.encounters src
        = some { device_info := di, first_seen := now, last_seen := now,
                 interaction_count := 1 }) ∧
    (∀ e, lookupTable st.encounters src = some e →
      lookupTable (process_packet st src (.Beacon di ts) now).1.encounters src
        = some { device_info := di, first_seen := e.first_seen,
                 last_seen := now,
                 interaction_count := e.interaction_count + 1 }) ∧
    (∀ b, b ≠ src →
      lookupTable (process_packet st src (.Beacon di ts) now).1.encounters b
        = lookupTable st.encounters b) := by
  refine ⟨?_, ?_, ?_⟩
  · intro h
    simp [process_packet, h, lookup_insert_self]
  · intro e he
    simp [process_packet, he, lookup_insert_self]
  · intro b hb
    simp [process_packet, lookup_insert_ne _ _ _ _ hb]

/-- Witness for C3: a fresh beacon into the empty table yields the record
(di0, 7, 7, 1); a repeat beacon into st1 (record from time 100) yields
(di1, 100, 200, 2). -/
theorem process_beacon_record_semantics_witness :
    lookupTable (process_packet stEmpty a0 (.Beacon di0 5) 7).1.encounters a0
      = some { device_info := di0, first_seen := 7, last_seen := 7,
               interaction_count := 1 } ∧
    lookupTable (process_packet st1 a0 (.Beacon di1 5) 200).1.encounters a0
      = some { device_info := di1, first_seen := 100, last_seen := 200,
               interaction_count := 2 } :=
  ⟨(process_beacon_record_semantics stEmpty a0 di0 5 7).1 rfl,
   (process_beacon_record_semantics st1 a0 di1 5 200).2.1 e0 rfl⟩

/-- Claim C7: a payload that fails to deserialize leaves the whole state
unchanged and sends nothing; the receive path is a total function, so it
cannot crash. -/
theorem malformed_packet_no_effect (st : AppState) (src : Mac)
    (data : List Nat) (parse : List Nat → Option StreetPassPacket)
    (now : Nat) (h : parse data = none) :
    esp_now_receive_callback st src data parse now = (st, []) := by
  unfold esp_now_receive_callback
  rw [h]
  split
  · rfl
  split
  · rfl
  · rfl

/-- Witness for C7 at a concrete state and a parse function rejecting
every input. -/
theorem malformed_packet_no_effect_witness :
    esp_now_receive_callback st1 a0 [0] (fun _ => none) 5 = (st1, []) :=
  malformed_packet_no_effect st1 a0 [0] (fun _ => none) 5 rfl

/-- Claim C8: the Ack queued in reply to a processed Beacon is addressed to
the sender and carries exactly the Beacon's timestamp. -/
theorem beacon_ack_same_timestamp (st : AppState) (src : Mac)
    (di : DeviceInfo) (ts now : Nat) :
    (process_packet st src (.Beacon di ts) now).2 = [(src, .Ack ts)] := rfl

/-- Claim C9: a packet whose source address equals this node's own MAC
is dropped by the receive callback: state unchanged and nothing sent. -/
theorem own_packet_ignored (st : AppState) (src : Mac) (data : List Nat)
    (parse : List Nat → Option StreetPassPacket) (now : Nat)
    (h : src = st.my_mac) :
    esp_now_receive_callback st src data parse now = (st, []) := by
  by_cases hd : data.length = 0
  · simp [esp_now_receive_callback, hd]
  · simp [esp_now_receive_callback, hd, h]

/-- Witness for C9: a valid Beacon from our own MAC address is ignored. -/
theorem own_packet_ignored_witness :
    esp_now_receive_callback st1 myMac0 [0]
      (fun _ => some (.Beacon di0 3)) 5 = (st1, []) :=
  own_packet_ignored st1 myMac0 [0] (fun _ => some (.Beacon di0 3)) 5 rfl

/-- Claim C10: Ack and GameData packets are pure no-ops for the application
state (encounter table, LED flag, device info and stored MAC all unchanged)
and send nothing. -/
theorem ack_gamedata_state_unchanged (st : AppState) (src : Mac)
    (ts gid : Nat) (d : List Nat) (now : Nat) :
    process_packet st src (.Ack ts) now = (st, []) ∧
    process_packet st src (.GameData gid d) now = (st, []) :=
  ⟨rfl, rfl⟩

theorem lookup_filter_none (t : EncounterTable) (f : Mac × Encounter → Bool)
    (a : Mac) (h : lookupTable t a = none) :
    lookupTable (t.filter f) a = none := by
  induction t with
  | nil => simp [lookupTable]
  | cons p rest ih =>
      obtain ⟨k, v⟩ := p
      by_cases hk : k = a
      · simp [lookupTable, hk] at h
      · simp only [lookupTable, if_neg hk] at h
        by_cases hf : f (k, v)
        · simp [List.filter_cons, hf, lookupTable, hk, ih h]
        · simp [List.filter_cons, hf, ih h]

theorem lookup_filter (t : EncounterTable) (f : Mac × Encounter → Bool)
    (hnd : (t.map Prod.fst).Nodup) (a : Mac) :
    lookupTable (t.filter f) a =
      (lookupTable t a).bind (fun e => if f (a, e) then some e else none) := by
  induction t with
  | nil => simp [lookupTable]
  | cons p rest ih =>
      obtain ⟨k, v⟩ := p
      rw [List.map_cons, List.nodup_cons] at hnd
      obtain ⟨hknot, hrest⟩ := hnd
      by_cases hk : k = a
      · subst hk
        by_cases hf : f (k, v)
        · simp [List.filter_cons, hf, lookupTable]
        · have hnone : lookupTable rest k = none :=
            lookup_none_of_not_key rest k hknot
          simp [List.filter_cons, hf, lookupTable,
            lookup_filter_none rest f k hnone]
      · by_cases hf : f (k, v)
        · simp [List.filter_cons, hf, lookupTable, hk, ih hrest]
        · simp [List.filter_cons, hf, lookupTable, hk, ih hrest]

/-- Claim C4: when now is at least every record's last_seen, the sweep
keeps exactly the records with now - last_seen < INTERACTION_TTL
(unchanged), removes exactly those with now - last_seen >= INTERACTION_TTL,
and creates nothing. -/
theorem sweep_removes_exactly_expired (st : AppState) (now : Nat)
    (hnd : (st.encounters.map Prod.fst).Nodup)
    (hle : ∀ p ∈ st.encounters, p.2.last_seen ≤ now) :
    (∀ a e, lookupTable st.encounters a = some e →
        now - e.last_seen < INTERACTION_TTL →
        lookupTable (cleanup_old_encounters st now).encounters a = some e) ∧
    (∀ a e, lookupTable st.encounters a = some e →
        INTERACTION_TTL ≤ now - e.last_seen →
        lookupTable (cleanup_old_encounters st now).encounters a = none) ∧
    (∀ a, lookupTable st.encounters a = none →
        lookupTable (cleanup_old_encounters st now).encounters a = none) := by
  refine ⟨?_, ?_, ?_⟩
  · intro a e he hexp
    unfold cleanup_old_encounters
    rw [lookup_filter _ _ hnd]
    simp [he, hexp]
  · intro a e he hexp
    unfold cleanup_old_encounters
    rw [lookup_filter _ _ hnd]
    simp [he, Nat.not_lt.mpr hexp]
  · intro a ha
    unfold cleanup_old_encounters
    exact lookup_filter_none _ _ a ha

/-- A second peer address, used by the sweep witness. -/
def a1 : Mac := [7, 7, 7, 7, 7, 7]

/-- A stale encounter record, last seen at time 0. -/
def eStale : Encounter :=
  { device_info := di0, first_seen := 0, last_seen := 0,
    interaction_count := 1 }

/-- A concrete state holding a fresh record (a0, seen at 100) and a stale
one (a1, seen at 0). -/
def st2 : AppState :=
  { device_info := di0, encounters := [(a0, e0), (a1, eStale)],
    my_mac := myMac0, led_on := false }

/-- Witness for C4: sweeping st2 at time 86400 keeps the record of a0
(age 86300 < TTL) and removes the record of a1 (age 86400 >= TTL). -/
theorem sweep_removes_exactly_expired_witness :
    lookupTable (cleanup_old_encounters st2 86400).encounters a0 = some e0 ∧
    lookupTable (cleanup_old_encounters st2 86400).encounters a1 = none :=
  ⟨(sweep_removes_exactly_expired st2 86400 (by decide) (by decide)).1
      a0 e0 (by decide) (by decide),
   (sweep_removes_exactly_expired st2 86400 (by decide) (by decide)).2.1
      a1 eStale (by decide) (by decide)⟩

/-- Claim C1 counterexample: in st1 the address a0 is blocked at time 100
(a record exists and its age 0 is below the TTL), yet processing a Beacon
from a0 changes the encounter table (the record's interaction_count and
payload are updated), contradicting the claim that the table is left
unchanged. -/
theorem blocked_beacon_counterexample :
    (lookupTable st1.encounters a0 = some e0 ∧
      100 - e0.last_seen < INTERACTION_TTL) ∧
    (process_packet st1 a0 (.Beacon di1 42) 100).1.encounters
      ≠ st1.encounters := by
  refine ⟨⟨by decide, by decide⟩, by decide⟩

/-- Claim C1 amended: a Beacon from a blocked address (an encounter record
exists and now - last_seen < TTL) is not dropped: processing it updates
that record in place (last_seen := now, interaction_count incremented by
one, payload replaced, first_seen kept) and touches no other address. -/
theorem blocked_beacon_still_recorded (st : AppState) (a : Mac)
    (e : Encounter) (di : DeviceInfo) (ts now : Nat)
    (hrec : lookupTable st.encounters a = some e)
    (httl : now - e.last_seen < INTERACTION_TTL) :
    lookupTable (process_packet st a (.Beacon di ts) now).1.encounters a
      = some { device_info := di, first_seen := e.first_seen,
               last_seen := now,
               interaction_count := e.interaction_count + 1 } ∧
    ∀ b, b ≠ a →
      lookupTable (process_packet st a (.Beacon di ts) now).1.encounters b
        = lookupTable st.encounters b := by
  constructor
  · simp [process_packet, hrec, lookup_insert_self]
  · intro b hb
    simp [process_packet, lookup_insert_ne _ _ _ _ hb]

/-- Witness for the amended C1: processing a Beacon from the blocked
address a0 of st1 at time 150 yields the updated record
(di1, 100, 150, 2). -/
theorem blocked_beacon_still_recorded_witness :
    lookupTable (process_packet st1 a0 (.Beacon di1 42) 150).1.encounters a0
      = some { device_info := di1, first_seen := 100, last_seen := 150,
               interaction_count := 2 } :=
  (blocked_beacon_still_recorded st1 a0 e0 di1 42 150 (by decide)
    (by decide)).1

/-- Claim C2, evaluated at the failing input: with the table already
holding MAX_PEERS records, processing a Beacon from a 21st address inserts
a 21st record and evicts nothing (every pre-existing record survives),
so the table size exceeds the capacity. -/
theorem full_table_insert_no_eviction :
    stFull.encounters.length = MAX_PEERS ∧
    (process_packet stFull newMac (.Beacon di0 0) 1).1.encounters.length
      = MAX_PEERS + 1 ∧
    ∀ p ∈ stFull.encounters,
      p ∈ (process_packet stFull newMac (.Beacon di0 0) 1).1.encounters := by
  refine ⟨by decide, by decide, by decide⟩

theorem countP_key_zero_of_lookup_none (t : EncounterTable) (a : Mac)
    (h : lookupTable t a = none) :
    t.countP (fun q => decide (q.1 = a)) = 0 := by
  induction t with
  | nil => simp
  | cons p rest ih =>
      obtain ⟨k, v⟩ := p
      by_cases hk : k = a
      · simp [lookupTable, hk] at h
      · simp only [lookupTable, if_neg hk] at h
        simp [List.countP_cons, hk, ih h]

theorem countP_key_insert_of_contains (t : EncounterTable) (a : Mac)
    (e : Encounter) (h : (lookupTable t a).isSome) :
    (insertTable t a e).countP (fun q => decide (q.1 = a))
      = t.countP (fun q => decide (q.1 = a)) := by
  induction t with
  | nil => simp [lookupTable] at h
  | cons p rest ih =>
      obtain ⟨k, v⟩ := p
      by_cases hk : k = a
      · simp [insertTable, hk, List.countP_cons]
      · simp only [lookupTable, if_neg hk] at h
        simp [insertTable, hk, List.countP_cons, ih h]

/-- Claim C6: two Beacons in succession from a never-before-seen address
leave exactly one record for that address (not two), carrying
interaction_count = 2, first_seen from the first beacon and last_seen from
the second; the table grows by exactly one entry. -/
theorem repeated_beacon_single_record (st : AppState) (src : Mac)
    (dA dB : DeviceInfo) (ts1 ts2 n1 n2 : Nat)
    (hnew : lookupTable st.encounters src = none) :
    lookupTable (process_packet
        (process_packet st src (.Beacon dA ts1) n1).1
        src (.Beacon dB ts2) n2).1.encounters src
      = some { device_info := dB, first_seen := n1, last_seen := n2,
               interaction_count := 2 } ∧
    (process_packet (process_packet st src (.Beacon dA ts1) n1).1
        src (.Beacon dB ts2) n2).1.encounters.countP
        (fun q => decide (q.1 = src)) = 1 ∧
    (process_packet (process_packet st src (.Beacon dA ts1) n1).1
        src (.Beacon dB ts2) n2).1.encounters.length
      = st.encounters.length + 1 := by
  have h1 : (process_packet st src (.Beacon dA ts1) n1).1.encounters
      = insertTable st.encounters src
        { device_info := dA, first_seen := n1, last_seen := n1,
          interaction_count := 1 } := by
    simp [process_packet, hnew]
  have hl1 : lookupTable
      (process_packet st src (.Beacon dA ts1) n1).1.encounters src
      = some { device_info := dA, first_seen := n1, last_seen := n1,
               interaction_count := 1 } := by
    rw [h1]
    exact lookup_insert_self _ _ _
  have h2 : (process_packet (process_packet st src (.Beacon dA ts1) n1).1
        src (.Beacon dB ts2) n2).1.encounters
      = insertTable
          (process_packet st src (.Beacon dA ts1) n1).1.encounters src
          { device_info := dB, first_seen := n1, last_seen := n2,
            interaction_count := 2 } := by
    simp [process_packet, hnew, lookup_insert_self]
  refine ⟨?_, ?_, ?_⟩
  · rw [h2]
    exact lookup_insert_self _ _ _
  · rw [h2, countP_key_insert_of_contains _ _ _ (by rw [hl1]; rfl), h1,
      insertTable_of_not_mem _ _ _ hnew, List.countP_append]
    simp [countP_key_zero_of_lookup_none st.encounters src hnew]
  · rw [h2, length_insert_of_contains _ _ _ (by rw [hl1]; rfl), h1,
      length_insert_of_new _ _ _ hnew]

/-- Witness for C6: two beacons from the unseen address a0 into the empty
table produce a single record (di1, 10, 20, 2) in a one-entry table. -/
theorem repeated_beacon_single_record_witness :
    lookupTable (process_packet
        (process_packet stEmpty a0 (.Beacon di0 1) 10).1
        a0 (.Beacon di1 2) 20).1.encounters a0
      = some { device_info := di1, first_seen := 10, last_seen := 20,
               interaction_count := 2 } ∧
    (process_packet (process_packet stEmpty a0 (.Beacon di0 1) 10).1
        a0 (.Beacon di1 2) 20).1.encounters.countP
        (fun q => decide (q.1 = a0)) = 1 ∧
    (process_packet (process_packet stEmpty a0 (.Beacon di0 1) 10).1
        a0 (.Beacon di1 2) 20).1.encounters.length
      = stEmpty.encounters.length + 1 :=
  repeated_beacon_single_record stEmpty a0 di0 di1 1 2 10 20 rfl

theorem lookup_some_mem (t : EncounterTable) (a : Mac) (e : Encounter)
    (h : lookupTable t a = some e) : (a, e) ∈ t := by
  induction t with
  | nil => simp [lookupTable] at h
  | cons p rest ih =>
      obtain ⟨k, v⟩ := p
      have hdef : lookupTable ((k, v) :: rest) a
          = if k = a then some v else lookupTable rest a := rfl
      rw [hdef] at h
      by_cases hk : k = a
      · rw [if_pos hk] at h
        obtain rfl := Option.some.inj h
        rw [← hk]
        exact List.mem_cons_self _ _
      · rw [if_neg hk] at h
        exact List.mem_cons_of_mem _ (ih h)

theorem tableWF_mono (t : EncounterTable) (c c2 : Nat) (h : TableWF t c)
    (hle : c ≤ c2) : TableWF t c2 := by
  obtain ⟨hnd, hrec⟩ := h
  exact ⟨hnd, fun p hp =>
    ⟨(hrec p hp).1, le_trans (hrec p hp).2.1 hle, (hrec p hp).2.2⟩⟩

theorem wf_process_packet (st : AppState) (src : Mac)
    (pkt : StreetPassPacket) (c now : Nat) (h : TableWF st.encounters c)
    (hle : c ≤ now) :
    TableWF (process_packet st src pkt now).1.encounters now := by
  obtain ⟨hnd, hrec⟩ := h
  cases pkt with
  | Ack ts => exact tableWF_mono _ _ _ ⟨hnd, hrec⟩ hle
  | GameData g d => exact tableWF_mono _ _ _ ⟨hnd, hrec⟩ hle
  | Beacon di ts =>
      have henc : (process_packet st src (.Beacon di ts) now).1.encounters
          = insertTable st.encounters src
            { device_info := di,
              first_seen := ((lookupTable st.encounters src).getD
                { device_info := di, first_seen := now, last_seen := now,
                  interaction_count := 0 }).first_seen,
              last_seen := now,
              interaction_count := ((lookupTable st.encounters src).getD
                { device_info := di, first_seen := now, last_seen := now,
                  interaction_count := 0 }).interaction_count + 1 } := rfl
      rw [henc]
      refine ⟨nodup_keys_insert _ _ _ hnd, ?_⟩
      intro p hp
      rcases mem_insertTable _ _ _ _ hp with rfl | hp2
      · cases hcase : lookupTable st.encounters src with
        | none =>
            exact ⟨Nat.le_refl _, Nat.le_refl _, Nat.le_refl _⟩
        | some e =>
            have hm := hrec (src, e) (lookup_some_mem _ _ _ hcase)
            exact ⟨le_trans hm.1 (le_trans hm.2.1 hle), Nat.le_refl _,
              Nat.succ_le_succ (Nat.zero_le _)⟩
      · obtain ⟨h1, h2, h3⟩ := hrec p hp2
        exact ⟨h1, le_trans h2 hle, h3⟩

theorem wf_cleanup (st : AppState) (c now : Nat) (h : TableWF st.encounters c)
    (hle : c ≤ now) :
    TableWF (cleanup_old_encounters st now).encounters now := by
  obtain ⟨hnd, hrec⟩ := h
  unfold cleanup_old_encounters
  constructor
  · exact hnd.sublist ((List.filter_sublist _).map Prod.fst)
  · intro p hp
    obtain ⟨h1, h2, h3⟩ := hrec p (List.mem_of_mem_filter hp)
    exact ⟨h1, le_trans h2 hle, h3⟩

theorem wf_applyOp (st : AppState) (op : Op) (c : Nat)
    (h : TableWF st.encounters c) (hle : c ≤ opNow op) :
    TableWF (applyOp st op).encounters (opNow op) := by
  cases op with
  | packet src pkt now => exact wf_process_packet st src pkt c now h hle
  | sweep now => exact wf_cleanup st c now h hle

theorem runOps_wf : ∀ (ops : List Op) (st : AppState) (c : Nat),
    TableWF st.encounters c →
    List.Chain (fun x y => x ≤ y) c (ops.map opNow) →
    ∃ cf, TableWF (runOps st ops).encounters cf := by
  intro ops
  induction ops with
  | nil =>
      intro st c h _
      exact ⟨c, h⟩
  | cons op ops ih =>
      intro st c h hchain
      rw [List.map_cons, List.chain_cons] at hchain
      exact ih (applyOp st op) (opNow op)
        (wf_applyOp st op c h hchain.1) hchain.2

/-- Claim C5: after any sequence of packet-processing and sweep operations
with non-decreasing clocks, starting from the empty table, the table has at
most one record per address (its key list has no duplicates) and every
record satisfies first_seen <= last_seen and interaction_count >= 1. -/
theorem engine_invariants (di : DeviceInfo) (mac : Mac) (ops : List Op)
    (h : List.Chain (fun x y => x ≤ y) 0 (ops.map opNow)) :
    ((runOps ⟨di, [], mac, false⟩ ops).encounters.map Prod.fst).Nodup ∧
    ∀ p ∈ (runOps ⟨di, [], mac, false⟩ ops).encounters,
      p.2.first_seen ≤ p.2.last_seen ∧ 1 ≤ p.2.interaction_count := by
  obtain ⟨cf, hwf⟩ := runOps_wf ops ⟨di, [], mac, false⟩
    0 ⟨List.nodup_nil, fun p hp => absurd hp (List.not_mem_nil p)⟩ h
  exact ⟨hwf.1, fun p hp => ⟨(hwf.2 p hp).1, (hwf.2 p hp).2.2⟩⟩

/-- A concrete operation sequence with non-decreasing clocks: two beacons
around a sweep. -/
def opsW : List Op :=
  [Op.packet a0 (.Beacon di0 5) 10, Op.sweep 20,
   Op.packet a1 (.Beacon di1 6) 30]

/-- Witness for C5 on the concrete sequence opsW from the empty table. -/
theorem engine_invariants_witness :
    ((runOps ⟨di0, [], myMac0, false⟩ opsW).encounters.map
        Prod.fst).Nodup ∧
    ∀ p ∈ (runOps ⟨di0, [], myMac0, false⟩ opsW).encounters,
      p.2.first_seen ≤ p.2.last_seen ∧ 1 ≤ p.2.interaction_count :=
  engine_invariants di0 myMac0 opsW
    (List.Chain.cons (by decide)
      (List.Chain.cons (by decide)
        (List.Chain.cons (by decide) List.Chain.nil)))
